import Mathlib

/-!
Verification of the `AsyncEventProcessor` component of the FlexPrice Python SDK
(defined in `api/scripts/python/add_python_async.py`, `ASYNC_UTILS_CONTENT`).

Shallow embedding conventions:
* the transport (`api_instance.events_post`) is modelled as a function from the
  attempt index to `Except ε ρ` (the n-th call either returns a result or
  raises an error);
* `random.random()` is modelled as a function `rand : Nat → ℚ` giving the draw
  used before a given attempt index, with `0 ≤ rand n < 1` as a hypothesis
  where a claim needs it; `float` arithmetic is modelled by exact rationals;
* the optional callback is modelled by a flag `hasCb`; the trace records the
  tuple `(result, error, success)` of every invocation, so exactly-once claims
  become claims about the length of the recorded list;
* the bounded `Queue` is a `List` together with its `maxsize`; `put_nowait`
  returns `Except QueueError` (it raises `Full` exactly when
  `0 < maxsize ≤ qsize`, as in CPython);
* Python exceptions deriving from `Exception` are the inductive `PyExn`, with
  `queue.Empty` as a distinguished constructor because the worker loop has a
  dedicated `except Empty` arm.
-/

namespace Flexprice

/-- One recorded callback invocation: the keyword arguments
`(result, error, success)` of the Python call. -/
abbrev CallbackCall (ρ ε : Type) := Option ρ × Option ε × Bool

/-- Observable trace of `AsyncEventProcessor._process_event` on one item:
how many transport calls were made, which backoff delays were slept
(in order), and which callback invocations happened (in order). -/
structure RunTrace (ρ ε : Type) where
  attempts : Nat
  delays : List ℚ
  callbacks : List (CallbackCall ρ ε)
deriving DecidableEq, Repr

/-- The jittered exponential backoff slept before attempt index `a`
(`a ≥ 1`): `retry_delay * (2 ** (attempt - 1)) * (0.5 + random.random())`
from lines 117–118 of the worker source. -/
def backoffDelay (retryDelay : ℚ) (rand : Nat → ℚ) (a : Nat) : ℚ :=
  retryDelay * 2 ^ (a - 1) * (1 / 2 + rand a)

/-- The retry loop of `_process_event`, starting from attempt index
`attempt` with accumulated `lastError`; `fuel` is the number of loop
iterations still permitted by the guard `attempt <= max_retries`
(maintained as `fuel = max_retries + 1 - attempt`).  Each iteration sleeps
the backoff delay when `attempt > 0`, calls the transport, and on success
invokes the callback with `(result, None, True)` and returns; on failure it
records the error and continues.  When the guard fails the callback is
invoked with `(None, last_error, False)`. -/
def processFrom (retryDelay : ℚ) (rand : Nat → ℚ) {ε ρ : Type}
    (transport : Nat → Except ε ρ) (hasCb : Bool) :
    Nat → Option ε → Nat → RunTrace ρ ε
  | _, lastError, 0 =>
      { attempts := 0, delays := [],
        callbacks := if hasCb then [(none, lastError, false)] else [] }
  | attempt, _, fuel + 1 =>
      let ds : List ℚ :=
        if 0 < attempt then [backoffDelay retryDelay rand attempt] else []
      match transport attempt with
      | .ok r =>
          { attempts := 1, delays := ds,
            callbacks := if hasCb then [(some r, none, true)] else [] }
      | .error e =>
          let rest :=
            processFrom retryDelay rand transport hasCb (attempt + 1) (some e) fuel
          { attempts := rest.attempts + 1, delays := ds ++ rest.delays,
            callbacks := rest.callbacks }

/-- `AsyncEventProcessor._process_event`: the retry loop entered with
`attempt = 0`, `last_error = None`, and guard `attempt <= max_retries`,
i.e. at most `max_retries + 1` iterations. -/
def process_event (maxRetries : Nat) (retryDelay : ℚ) (rand : Nat → ℚ)
    {ε ρ : Type} (transport : Nat → Except ε ρ) (hasCb : Bool) : RunTrace ρ ε :=
  processFrom retryDelay rand transport hasCb 0 none (maxRetries + 1)

/-- An item of the event queue: the tuple `(event, api_instance, callback)`
built by `submit_event`. -/
structure QueueItem (E A C : Type) where
  event : E
  api : A
  callback : Option C
deriving DecidableEq, Repr

/-- An error raised by an enqueue operation: `queue.Full`, or any other
exception (the catch-all in `submit_event` does not inspect it). -/
inductive QueueError where
  | full
  | other (tag : Nat)
deriving DecidableEq, Repr

/-- `Queue.put_nowait` on a queue with the given `maxsize`: raises `Full`
exactly when `0 < maxsize` and the queue already holds `maxsize` items
(CPython treats `maxsize <= 0` as unbounded), otherwise appends. -/
def put_nowait (maxsize : Nat) {α : Type} (q : List α) (x : α) :
    Except QueueError (List α) :=
  if 0 < maxsize ∧ maxsize ≤ q.length then .error .full
  else .ok (q ++ [x])

/-- `AsyncEventProcessor.submit_event`, generic in the enqueue operation so
that the `try/except` can be studied against an enqueue raising any
exception, not only `Full`.  The body validates `event` and `api_instance`
against `None` (returning `False` without enqueuing), then attempts the
enqueue; the `except Exception` arm turns any raised error into the return
value `False`, leaving the queue as the failed operation left it
(unchanged).  Returns the Python return value together with the resulting
queue. -/
def submit_event_with {E A C : Type}
    (enqueue : List (QueueItem E A C) → QueueItem E A C →
      Except QueueError (List (QueueItem E A C)))
    (q : List (QueueItem E A C)) (event : Option E) (api : Option A)
    (cb : Option C) : Bool × List (QueueItem E A C) :=
  match event, api with
  | none, _ => (false, q)
  | some _, none => (false, q)
  | some e, some a =>
      match enqueue q ⟨e, a, cb⟩ with
      | .ok q' => (true, q')
      | .error _ => (false, q)

/-- `AsyncEventProcessor.submit_event` with the concrete
`self.event_queue.put_nowait` enqueue. -/
def submit_event (maxsize : Nat) {E A C : Type}
    (q : List (QueueItem E A C)) (event : Option E) (api : Option A)
    (cb : Option C) : Bool × List (QueueItem E A C) :=
  submit_event_with (fun q x => put_nowait maxsize q x) q event api cb

/-- Lifecycle state of the processor: the `_running` flag and the
`_worker_threads` list (threads identified by their spawn index). -/
structure ProcessorLifecycle where
  running : Bool
  workerThreads : List Nat
deriving DecidableEq, Repr

/-- The Stopped state of the spec's state machine: not running and no
worker threads (the constructor state, and the state `stop` leaves). -/
def IsStopped (s : ProcessorLifecycle) : Prop :=
  s.running = false ∧ s.workerThreads = []

/-- `AsyncEventProcessor.start`: returns immediately if already running;
otherwise sets `_running` and spawns `workers` threads, appending them to
`_worker_threads`. -/
def start (workers : Nat) (s : ProcessorLifecycle) : ProcessorLifecycle :=
  if s.running then s
  else { running := true, workerThreads := s.workerThreads ++ List.range workers }

/-- `AsyncEventProcessor.stop`: clears `_running`, joins every worker
thread (with a bounded timeout), and resets `_worker_threads` to `[]`. -/
def stop (_ : ProcessorLifecycle) : ProcessorLifecycle :=
  { running := false, workerThreads := [] }

/-- A Python exception deriving from `Exception`: `queue.Empty`, or any
other exception (identified by an opaque tag). -/
inductive PyExn where
  | emptyExn
  | exn (tag : Nat)
deriving DecidableEq, Repr

/-- What `event_queue.get` hands one worker iteration: Python `None`, a
value failing the `isinstance(event_data, tuple) and len == 3` check, or a
proper `(event, api_instance, callback)` tuple. -/
inductive QEntry (E A C : Type) where
  | noItem
  | malformed
  | tuple3 (event : E) (api : A) (cb : Option C)
deriving DecidableEq, Repr

/-- The `try` block of one `_process_queue` iteration: dequeue (which may
raise), skip `None`, log-and-skip malformed entries, and otherwise run
`_process_event` (modelled abstractly by `proc`, which may raise any
exception, e.g. a failure callback that throws). -/
def tryBody {E A C : Type} (got : Except PyExn (QEntry E A C))
    (proc : E → A → Option C → Except PyExn Unit) : Except PyExn Unit :=
  match got with
  | .error e => .error e
  | .ok .noItem => .ok ()
  | .ok .malformed => .ok ()
  | .ok (.tuple3 ev a cb) => proc ev a cb

/-- One full `_process_queue` iteration with its exception handlers:
`except Empty: pass` and `except Exception: log`.  Returns `true` iff the
worker loop proceeds to its next guard check (it always does: no arm
re-raises or breaks). -/
def iterationContinues {E A C : Type} (got : Except PyExn (QEntry E A C))
    (proc : E → A → Option C → Except PyExn Unit) : Bool :=
  match tryBody got proc with
  | .ok _ => true
  | .error .emptyExn => true
  | .error (.exn _) => true

/-- The worker loop `while self._running`, run over a schedule of dequeue
outcomes during a period in which `_running` stays `true`: counts the
iterations the worker completes before the schedule is exhausted.  An
iteration whose body raised an uncaught exception would terminate the
thread (count stops there). -/
def workerLoop {E A C : Type}
    (proc : E → A → Option C → Except PyExn Unit) :
    List (Except PyExn (QEntry E A C)) → Nat
  | [] => 0
  | got :: rest =>
      if iterationContinues got proc then workerLoop proc rest + 1 else 0

/-! ### Helper lemmas about the retry loop -/

/-- Whatever the transport does, one run of the retry loop records exactly
one callback invocation when a callback was supplied and none otherwise. -/
theorem processFrom_callbacks_length (retryDelay : ℚ) (rand : Nat → ℚ)
    {ε ρ : Type} (transport : Nat → Except ε ρ) (hasCb : Bool) :
    ∀ (fuel attempt : Nat) (lastError : Option ε),
      (processFrom retryDelay rand transport hasCb attempt lastError fuel).callbacks.length
        = if hasCb then 1 else 0 := by
  intro fuel
  induction fuel with
  | zero =>
      intro attempt lastError
      cases hasCb <;> simp [processFrom]
  | succ f ih =>
      intro attempt lastError
      simp only [processFrom]
      cases htr : transport attempt with
      | ok r => cases hasCb <;> simp
      | error e => simpa using ih (attempt + 1) (some e)

/-- If the transport fails on every attempt the loop can reach, the loop
uses all its fuel: one transport call per remaining iteration. -/
theorem processFrom_allfail_attempts (retryDelay : ℚ) (rand : Nat → ℚ)
    {ε ρ : Type} (transport : Nat → Except ε ρ) (hasCb : Bool) (err : Nat → ε) :
    ∀ (fuel attempt : Nat) (lastError : Option ε),
      (∀ n, attempt ≤ n → n < attempt + fuel → transport n = Except.error (err n)) →
      (processFrom retryDelay rand transport hasCb attempt lastError fuel).attempts
        = fuel := by
  intro fuel
  induction fuel with
  | zero =>
      intro attempt lastError _
      simp [processFrom]
  | succ f ih =>
      intro attempt lastError h
      have htr : transport attempt = Except.error (err attempt) :=
        h attempt le_rfl (by omega)
      simp only [processFrom, htr]
      have := ih (attempt + 1) (some (err attempt))
        (fun n h1 h2 => h n (by omega) (by omega))
      simpa using this

/-- If the transport fails on every attempt the loop can reach, the final
callback carries the error of the last attempt actually made. -/
theorem processFrom_allfail_callbacks (retryDelay : ℚ) (rand : Nat → ℚ)
    {ε ρ : Type} (transport : Nat → Except ε ρ) (hasCb : Bool) (err : Nat → ε) :
    ∀ (f attempt : Nat) (lastError : Option ε),
      (∀ n, attempt ≤ n → n < attempt + (f + 1) → transport n = Except.error (err n)) →
      (processFrom retryDelay rand transport hasCb attempt lastError (f + 1)).callbacks
        = if hasCb then [(none, some (err (attempt + f)), false)] else [] := by
  intro f
  induction f with
  | zero =>
      intro attempt lastError h
      have htr : transport attempt = Except.error (err attempt) :=
        h attempt le_rfl (by omega)
      simp [processFrom, htr]
  | succ f ih =>
      intro attempt lastError h
      have htr : transport attempt = Except.error (err attempt) :=
        h attempt le_rfl (by omega)
      simp only [processFrom, htr]
      have hrec := ih (attempt + 1) (some (err attempt))
        (fun n h1 h2 => h n (by omega) (by omega))
      have harith : attempt + 1 + f = attempt + (f + 1) := by omega
      rw [harith] at hrec
      simp only [processFrom] at hrec
      simpa using hrec

/-- If the transport fails strictly before attempt `j` and succeeds at `j`
(still within fuel), the loop stops right after attempt `j` with a success
callback carrying the transport's result. -/
theorem processFrom_firstSuccess (retryDelay : ℚ) (rand : Nat → ℚ)
    {ε ρ : Type} (transport : Nat → Except ε ρ) (hasCb : Bool) :
    ∀ (fuel attempt : Nat) (lastError : Option ε) (j : Nat) (r : ρ),
      attempt ≤ j → j < attempt + fuel → transport j = Except.ok r →
      (∀ i, attempt ≤ i → i < j → ∃ e, transport i = Except.error e) →
      (processFrom retryDelay rand transport hasCb attempt lastError fuel).attempts
          = j - attempt + 1 ∧
      (processFrom retryDelay rand transport hasCb attempt lastError fuel).callbacks
          = if hasCb then [(some r, none, true)] else [] := by
  intro fuel
  induction fuel with
  | zero =>
      intro attempt lastError j r h1 h2 _ _
      omega
  | succ f ih =>
      intro attempt lastError j r h1 h2 hok hfail
      by_cases hj : attempt = j
      · subst hj
        simp [processFrom, hok]
      · have hlt : attempt < j := by omega
        obtain ⟨e, he⟩ := hfail attempt le_rfl hlt
        simp only [processFrom, he]
        have := ih (attempt + 1) (some e) j r (by omega) (by omega) hok
          (fun i hi1 hi2 => hfail i (by omega) hi2)
        refine ⟨?_, by simpa using this.2⟩
        have h := this.1
        simp only [h]
        omega

/-- Starting from any attempt index `≥ 1`, the recorded delays are exactly
the backoff delays of the attempts made, in order. -/
theorem processFrom_delays (retryDelay : ℚ) (rand : Nat → ℚ)
    {ε ρ : Type} (transport : Nat → Except ε ρ) (hasCb : Bool) :
    ∀ (fuel attempt : Nat) (lastError : Option ε), 1 ≤ attempt →
      (processFrom retryDelay rand transport hasCb attempt lastError fuel).delays
        = (List.range' attempt
            (processFrom retryDelay rand transport hasCb attempt lastError fuel).attempts).map
              (backoffDelay retryDelay rand) := by
  intro fuel
  induction fuel with
  | zero =>
      intro attempt lastError _
      simp [processFrom]
  | succ f ih =>
      intro attempt lastError ha
      simp only [processFrom]
      cases htr : transport attempt with
      | ok r => simp [List.range'_succ, ha, Nat.lt_of_lt_of_le Nat.zero_lt_one ha]
      | error e =>
          have hrec := ih (attempt + 1) (some e) (by omega)
          simp only [if_pos (Nat.lt_of_lt_of_le Nat.zero_lt_one ha)]
          simp only [List.range'_succ, List.map_cons, hrec]
          simp

/-- The delays of a full `_process_event` run are the backoff delays of
attempts `1, …, attempts - 1`: no delay precedes the first attempt. -/
theorem process_event_delays (maxRetries : Nat) (retryDelay : ℚ) (rand : Nat → ℚ)
    {ε ρ : Type} (transport : Nat → Except ε ρ) (hasCb : Bool) :
    (process_event maxRetries retryDelay rand transport hasCb).delays
      = (List.range' 1
          ((process_event maxRetries retryDelay rand transport hasCb).attempts - 1)).map
            (backoffDelay retryDelay rand) := by
  simp only [process_event, processFrom]
  cases htr : transport 0 with
  | ok r => simp
  | error e =>
      have := processFrom_delays retryDelay rand transport hasCb
        maxRetries 1 (some e) le_rfl
      simpa using this

/-- Every arm of the iteration's `try` resolves to "continue": the `except`
clauses jointly cover every exception the body can raise. -/
theorem iterationContinues_true {E A C : Type}
    (got : Except PyExn (QEntry E A C))
    (proc : E → A → Option C → Except PyExn Unit) :
    iterationContinues got proc = true := by
  cases h : tryBody got proc with
  | ok u => simp [iterationContinues, h]
  | error e => cases e <;> simp [iterationContinues, h]

/-! ### The claims -/

/-- C1: for every submitted item the callback, when supplied, is invoked
exactly once — never duplicated, never lost — whatever the transport does;
and on the first successful transport call (attempt index `j`, every
earlier attempt failing) the worker stops after exactly `j + 1` attempts
and invokes the callback with `(result, None, success=True)`. -/
theorem claim_C1 (maxRetries : Nat) (retryDelay : ℚ) (rand : Nat → ℚ)
    {ε ρ : Type} (transport : Nat → Except ε ρ) (hasCb : Bool) (err : Nat → ε)
    (j : Nat) (r : ρ) :
    (∀ tr : Nat → Except ε ρ,
       (process_event maxRetries retryDelay rand tr hasCb).callbacks.length
         = if hasCb then 1 else 0) ∧
    ((∀ i, i < j → transport i = Except.error (err i)) → j ≤ maxRetries →
      transport j = Except.ok r →
      (process_event maxRetries retryDelay rand transport hasCb).attempts = j + 1 ∧
      (hasCb = true →
        (process_event maxRetries retryDelay rand transport hasCb).callbacks
          = [(some r, none, true)])) := by
  constructor
  · intro tr
    exact processFrom_callbacks_length retryDelay rand tr hasCb (maxRetries + 1) 0 none
  · intro hfail hj hok
    have h := processFrom_firstSuccess retryDelay rand transport hasCb
      (maxRetries + 1) 0 none j r (Nat.zero_le j) (by omega) hok
      (fun i _ hi => ⟨err i, hfail i hi⟩)
    constructor
    · simpa [process_event] using h.1
    · intro hcb
      subst hcb
      simpa [process_event] using h.2

/-- C1 witness: a transport failing once then succeeding with result `5`:
two attempts, one success callback `(some 5, none, true)`. -/
theorem claim_C1_witness :
    (process_event 3 1 (fun _ => (1 : ℚ) / 4)
        (fun n => if n = 0 then (Except.error n : Except Nat Nat) else Except.ok 5)
        true).attempts = 2 ∧
    (process_event 3 1 (fun _ => (1 : ℚ) / 4)
        (fun n => if n = 0 then (Except.error n : Except Nat Nat) else Except.ok 5)
        true).callbacks = [(some 5, none, true)] := by
  have h := (claim_C1 3 1 (fun _ => (1 : ℚ) / 4)
      (fun n => if n = 0 then (Except.error n : Except Nat Nat) else Except.ok 5)
      true (fun n => n) 1 5).2
    (by intro i hi
        have hz : i = 0 := by omega
        subst hz
        rfl)
    (by decide) rfl
  exact ⟨h.1, h.2 rfl⟩

/-- C2: if the transport fails on every attempt the worker can make, the
run makes exactly `max_retries + 1` attempts and then invokes the callback
(when supplied) with `(None, last_error, success=False)`, where
`last_error` is the error of the final attempt (index `max_retries`); with
no callback supplied nothing is invoked. -/
theorem claim_C2 (maxRetries : Nat) (retryDelay : ℚ) (rand : Nat → ℚ)
    {ε ρ : Type} (transport : Nat → Except ε ρ) (hasCb : Bool) (err : Nat → ε)
    (hfail : ∀ n, n ≤ maxRetries → transport n = Except.error (err n)) :
    (process_event maxRetries retryDelay rand transport hasCb).attempts
        = maxRetries + 1 ∧
    (hasCb = true →
      (process_event maxRetries retryDelay rand transport hasCb).callbacks
        = [(none, some (err maxRetries), false)]) ∧
    (hasCb = false →
      (process_event maxRetries retryDelay rand transport hasCb).callbacks = []) := by
  refine ⟨?_, ?_, ?_⟩
  · exact processFrom_allfail_attempts retryDelay rand transport hasCb err
      (maxRetries + 1) 0 none (fun n h1 h2 => hfail n (by omega))
  · intro hcb
    subst hcb
    have h := processFrom_allfail_callbacks retryDelay rand transport true err
      maxRetries 0 none (fun n h1 h2 => hfail n (by omega))
    simpa [process_event] using h
  · intro hcb
    subst hcb
    have h := processFrom_allfail_callbacks retryDelay rand transport false err
      maxRetries 0 none (fun n h1 h2 => hfail n (by omega))
    simpa [process_event] using h

/-- C2 witness: `max_retries = 2`, a transport failing with error `n` on
attempt `n`: three attempts and a failure callback carrying error `2`. -/
theorem claim_C2_witness :
    (process_event 2 1 (fun _ => (1 : ℚ) / 4)
        (fun n => (Except.error n : Except Nat Nat)) true).attempts = 3 ∧
    (process_event 2 1 (fun _ => (1 : ℚ) / 4)
        (fun n => (Except.error n : Except Nat Nat)) true).callbacks
      = [(none, some 2, false)] := by
  have h := claim_C2 2 1 (fun _ => (1 : ℚ) / 4)
    (fun n => (Except.error n : Except Nat Nat)) true (fun n => n)
    (fun n _ => rfl)
  exact ⟨h.1, h.2.1 rfl⟩

/-- C3: if the transport fails exactly `k` times (`k < max_retries`) and
then succeeds with result `r`, the worker makes exactly `k + 1` attempts
and invokes the callback with `success=True` carrying `r`. -/
theorem claim_C3 (maxRetries : Nat) (retryDelay : ℚ) (rand : Nat → ℚ)
    {ε ρ : Type} (transport : Nat → Except ε ρ) (err : Nat → ε) (k : Nat) (r : ρ)
    (hk : k < maxRetries)
    (hfail : ∀ i, i < k → transport i = Except.error (err i))
    (hok : transport k = Except.ok r) :
    (process_event maxRetries retryDelay rand transport true).attempts = k + 1 ∧
    (process_event maxRetries retryDelay rand transport true).callbacks
      = [(some r, none, true)] := by
  have h := processFrom_firstSuccess retryDelay rand transport true
    (maxRetries + 1) 0 none k r (Nat.zero_le k) (by omega) hok
    (fun i _ hi => ⟨err i, hfail i hi⟩)
  exact ⟨by simpa [process_event] using h.1, by simpa [process_event] using h.2⟩

/-- C3 witness: `max_retries = 3`, a transport failing on attempts 0 and 1
then succeeding with `42`: three attempts and a success callback. -/
theorem claim_C3_witness :
    (process_event 3 1 (fun _ => (1 : ℚ) / 4)
        (fun n => if n < 2 then (Except.error n : Except Nat Nat) else Except.ok 42)
        true).attempts = 3 ∧
    (process_event 3 1 (fun _ => (1 : ℚ) / 4)
        (fun n => if n < 2 then (Except.error n : Except Nat Nat) else Except.ok 42)
        true).callbacks = [(some 42, none, true)] :=
  claim_C3 3 1 (fun _ => (1 : ℚ) / 4)
    (fun n => if n < 2 then (Except.error n : Except Nat Nat) else Except.ok 42)
    (fun n => n) 2 42 (by decide)
    (by intro i hi
        have hlt : i < 2 := hi
        simp [hlt])
    rfl

/-- C4: submitting with a `None` event or a `None` api instance returns
`False` without enqueuing anything (so no worker ever sees an item for the
call and no callback can be invoked for it), and without raising — the
result is an ordinary return value. -/
theorem claim_C4 (maxsize : Nat) {E A C : Type} (q : List (QueueItem E A C))
    (e : E) (a : A) (cb : Option C) :
    submit_event maxsize q none (some a) cb = (false, q) ∧
    submit_event maxsize q (some e) none cb = (false, q) ∧
    submit_event maxsize q (none : Option E) (none : Option A) cb = (false, q) := by
  refine ⟨rfl, rfl, rfl⟩

/-- C5: with valid inputs and a bounded queue, `submit_event` returns
`False` leaving the queue unchanged when the queue is at (or beyond)
capacity — `put_nowait` raises `Full`, caught by the handler — and
otherwise appends the item and returns `True`; it never raises either
way. -/
theorem claim_C5 (maxsize : Nat) {E A C : Type} (q : List (QueueItem E A C))
    (e : E) (a : A) (cb : Option C) (hpos : 0 < maxsize) :
    submit_event maxsize q (some e) (some a) cb
      = if maxsize ≤ q.length then (false, q) else (true, q ++ [⟨e, a, cb⟩]) := by
  by_cases hfull : maxsize ≤ q.length
  · simp [submit_event, submit_event_with, put_nowait, hfull, hpos]
  · simp [submit_event, submit_event_with, put_nowait, hfull, hpos]

/-- C5 witness: capacity 2 — a full queue rejects the item unchanged, the
empty queue accepts and stores it. -/
theorem claim_C5_witness :
    submit_event 2 [(⟨1, 2, none⟩ : QueueItem Nat Nat Nat), ⟨3, 4, none⟩]
        (some 5) (some 6) none
      = (false, [⟨1, 2, none⟩, ⟨3, 4, none⟩]) ∧
    submit_event 2 ([] : List (QueueItem Nat Nat Nat)) (some 5) (some 6) none
      = (true, [⟨5, 6, none⟩]) := by
  constructor
  · have h := claim_C5 2 [(⟨1, 2, none⟩ : QueueItem Nat Nat Nat), ⟨3, 4, none⟩]
      5 6 none (by decide)
    simpa using h
  · have h := claim_C5 2 ([] : List (QueueItem Nat Nat Nat)) 5 6 none (by decide)
    simpa using h

/-- C6: no delay precedes the first attempt (there are exactly
`attempts - 1` delays), and the delay slept before the `N`-th attempt
(`N ≥ 2`) is `base_delay * 2^(N-2) * (0.5 + r)` with `r` the random draw
for that attempt; when `0 ≤ base_delay` and `r ∈ [0, 1)` that delay lies
within `[0.5, 1.5] × base_delay × 2^(N-2)`. -/
theorem claim_C6 (maxRetries : Nat) (retryDelay : ℚ) (rand : Nat → ℚ)
    {ε ρ : Type} (transport : Nat → Except ε ρ) (hasCb : Bool) (N : Nat)
    (hN : 2 ≤ N)
    (hle : N ≤ (process_event maxRetries retryDelay rand transport hasCb).attempts) :
    (process_event maxRetries retryDelay rand transport hasCb).delays[N - 2]?
        = some (retryDelay * 2 ^ (N - 2) * (1 / 2 + rand (N - 1))) ∧
    (process_event maxRetries retryDelay rand transport hasCb).delays.length
        = (process_event maxRetries retryDelay rand transport hasCb).attempts - 1 ∧
    (0 ≤ retryDelay → 0 ≤ rand (N - 1) → rand (N - 1) < 1 →
      1 / 2 * (retryDelay * 2 ^ (N - 2))
          ≤ retryDelay * 2 ^ (N - 2) * (1 / 2 + rand (N - 1)) ∧
      retryDelay * 2 ^ (N - 2) * (1 / 2 + rand (N - 1))
          ≤ 3 / 2 * (retryDelay * 2 ^ (N - 2))) := by
  refine ⟨?_, ?_, ?_⟩
  · have hm : N - 2 < (process_event maxRetries retryDelay rand transport hasCb).attempts - 1 := by
      omega
    rw [process_event_delays, List.getElem?_map, List.getElem?_range' 1 1 hm]
    have hidx : 1 + 1 * (N - 2) = N - 1 := by omega
    rw [hidx]
    have hexp : N - 1 - 1 = N - 2 := by omega
    simp [backoffDelay, hexp]
  · rw [process_event_delays]
    simp
  · intro h0 hr0 hr1
    have hb : (0 : ℚ) ≤ retryDelay * 2 ^ (N - 2) := mul_nonneg h0 (by positivity)
    constructor
    · nlinarith [mul_nonneg hb hr0]
    · nlinarith [mul_le_mul_of_nonneg_left hr1.le hb]

/-- C6 witness: `base_delay = 1`, every random draw `1/4`, a transport
that always fails: the delay before attempt 2 is `1 * 2^0 * (1/2 + 1/4)`. -/
theorem claim_C6_witness :
    (process_event 3 1 (fun _ => (1 : ℚ) / 4)
        (fun n => (Except.error n : Except Nat Nat)) true).delays[0]?
      = some ((1 : ℚ) * 2 ^ (2 - 2) * (1 / 2 + 1 / 4)) := by
  have h := claim_C6 3 1 (fun _ => (1 : ℚ) / 4)
    (fun n => (Except.error n : Except Nat Nat)) true 2 (by decide) (by decide)
  exact h.1

/-- C7: `start` on a running processor is a no-op (the whole state,
worker list included, is unchanged); `stop` on a stopped processor is a
no-op; `start` from the stopped state sets `_running` and spawns exactly
the configured number of workers; `stop` always leaves `_running`
cleared. -/
theorem claim_C7 (workers : Nat) (s : ProcessorLifecycle) :
    (s.running = true → start workers s = s) ∧
    (IsStopped s → stop s = s) ∧
    (s.running = false →
      (start workers s).running = true ∧
      (start workers s).workerThreads = s.workerThreads ++ List.range workers) ∧
    (IsStopped s → (start workers s).workerThreads.length = workers) ∧
    (stop s).running = false := by
  refine ⟨?_, ?_, ?_, ?_, rfl⟩
  · intro h
    simp [start, h]
  · rintro ⟨h1, h2⟩
    cases s
    simp_all [stop]
  · intro h
    constructor
    · simp [start, h]
    · simp [start, h]
  · rintro ⟨h1, h2⟩
    simp [start, h1, h2]

/-- C7 witness: from the stopped state, `stop` is a no-op and `start 2`
runs with exactly two workers. -/
theorem claim_C7_witness :
    stop ⟨false, ([] : List Nat)⟩ = ⟨false, []⟩ ∧
    (start 2 ⟨false, []⟩).running = true ∧
    (start 2 ⟨false, []⟩).workerThreads.length = 2 := by
  have h := claim_C7 2 ⟨false, []⟩
  exact ⟨h.2.1 ⟨rfl, rfl⟩, (h.2.2.1 rfl).1, h.2.2.2.1 ⟨rfl, rfl⟩⟩

/-- C9: every `_process_queue` iteration survives whatever its body does —
`queue.Empty` hits the `except Empty: pass` arm, any other exception the
`except Exception` arm — so a worker given any schedule of dequeue
outcomes completes all of it while `_running` holds: no single item can
terminate the worker thread. -/
theorem claim_C9 {E A C : Type} (proc : E → A → Option C → Except PyExn Unit)
    (schedule : List (Except PyExn (QEntry E A C)))
    (got : Except PyExn (QEntry E A C)) :
    iterationContinues got proc = true ∧
    workerLoop proc schedule = schedule.length := by
  refine ⟨iterationContinues_true got proc, ?_⟩
  induction schedule with
  | nil => rfl
  | cons g rest ih => simp [workerLoop, iterationContinues_true, ih]

/-- C10: `submit_event` is total at its public interface: the `try/except`
converts any exception the enqueue raises — `Full` or anything else — into
the return value `False` with the queue unchanged, indistinguishable from
the invalid-input and queue-full cases; whenever `False` comes back the
queue is untouched. -/
theorem claim_C10 {E A C : Type}
    (enqueue : List (QueueItem E A C) → QueueItem E A C →
      Except QueueError (List (QueueItem E A C)))
    (q : List (QueueItem E A C)) (event : Option E) (api : Option A)
    (cb : Option C) (err : QueueError) :
    ((∃ e a, event = some e ∧ api = some a ∧
        enqueue q ⟨e, a, cb⟩ = Except.error err) →
      submit_event_with enqueue q event api cb = (false, q)) ∧
    ((submit_event_with enqueue q event api cb).1 = false →
      (submit_event_with enqueue q event api cb).2 = q) := by
  constructor
  · rintro ⟨e, a, he, ha, henq⟩
    subst he
    subst ha
    simp [submit_event_with, henq]
  · intro hfalse
    match hev : event, hap : api with
    | none, _ => simp [submit_event_with]
    | some e, none => simp [submit_event_with]
    | some e, some a =>
        simp only [submit_event_with] at hfalse ⊢
        cases henq : enqueue q ⟨e, a, cb⟩ with
        | ok q2 => simp [henq] at hfalse
        | error e2 => simp [henq]

/-- C10 witness: an enqueue raising an arbitrary non-`Full` exception is
caught and reported as `False` with the queue unchanged. -/
theorem claim_C10_witness :
    submit_event_with (fun _ _ => Except.error (QueueError.other 7))
        ([] : List (QueueItem Nat Nat Nat)) (some 1) (some 2) none
      = (false, []) := by
  have h := claim_C10 (fun _ _ => Except.error (QueueError.other 7))
    ([] : List (QueueItem Nat Nat Nat)) (some 1) (some 2) none
    (QueueError.other 7)
  exact h.1 ⟨1, 2, rfl, rfl, rfl⟩

end Flexprice
